import Mathlib

/-!
Shallow embedding of the moneybags ledger program (Rust sources
`src/money.rs`, `src/moneybag.rs`, `src/main.rs`).

Money amounts are `i64` minor units in the source; they are embedded as
`Int`, with Rust's truncating `/` and `%` rendered as `Int.tdiv` /
`Int.tmod`.  Strings are embedded as `List Char`.
-/

/-- Embeds `Money` from `src/money.rs`: a signed count of minor units. -/
structure Money where
  amount : Int
deriving DecidableEq, Repr

/-- Embeds `Money::is_zero` from `src/money.rs`. -/
def Money.is_zero (m : Money) : Bool := m.amount == 0

/-- Embeds `impl Sub for Money`. -/
def Money.sub (a b : Money) : Money := ⟨a.amount - b.amount⟩

/-- Embeds `impl Neg for Money`. -/
def Money.neg (a : Money) : Money := ⟨-a.amount⟩

/-- Embeds `impl Div for Money`: `(self.amount * 100) / rhs.amount` with Rust's
truncating division. -/
def Money.div (a b : Money) : Money := ⟨Int.tdiv (a.amount * 100) b.amount⟩

/-- Embeds `impl Div<i64> for Money`: `self.amount / rhs` with Rust's truncating
division. -/
def Money.div_scalar (a : Money) (n : Int) : Money := ⟨Int.tdiv a.amount n⟩

/-- Embeds `impl Mul for Money`: `(self.amount * rhs.amount) / 100` with Rust's
truncating division. -/
def Money.mul (a b : Money) : Money := ⟨Int.tdiv (a.amount * b.amount) 100⟩

/-- Embeds `impl Mul<i64> for Money`. -/
def Money.mul_scalar (a : Money) (n : Int) : Money := ⟨a.amount * n⟩

/-- Embeds `impl Add for Money`. -/
def Money.add (a b : Money) : Money := ⟨a.amount + b.amount⟩

/-- Embeds `impl Sum for Money`: fold with `+` from zero. -/
def Money.sum (l : List Money) : Money := l.foldl Money.add ⟨0⟩

/-- Embeds `Money::default()`: zero minor units. -/
def Money.zero : Money := ⟨0⟩

/-! ### Decimal rendering of `i64`, as Rust's `Display` produces it -/

/-- The ASCII digit character for `n < 10`. -/
def digitChar (n : Nat) : Char := Char.ofNat (48 + n)

/-- Fuel-driven most-significant-first decimal digits accumulator. -/
def natDigitsAux : Nat → Nat → List Char → List Char
  | 0, _, acc => acc
  | fuel + 1, n, acc =>
    if n < 10 then digitChar n :: acc
    else natDigitsAux fuel (n / 10) (digitChar (n % 10) :: acc)

/-- Decimal digits of a natural number, no leading zeros (except "0"). -/
def natDigits (n : Nat) : List Char := natDigitsAux (n + 1) n []

/-- Rust's `Display` for `i64`: optional minus sign, then decimal digits. -/
def intToDec (i : Int) : List Char :=
  if i < 0 then '-' :: natDigits i.natAbs else natDigits i.natAbs

/-- Rust's `{:0>2}` format specifier applied to a natural number: a decimal
rendering left-padded with '0' to at least two characters. -/
def pad2 (n : Nat) : List Char :=
  if n < 10 then '0' :: natDigits n else natDigits n

/-- Embeds `impl Display for Money` from `src/money.rs`:
`write!(f, "{}.{:0>2}", self.amount / 100, (self.amount % 100).abs())`. -/
def Money.format (m : Money) : List Char :=
  intToDec (Int.tdiv m.amount 100) ++ '.' :: pad2 (Int.tmod m.amount 100).natAbs

/-! ### Parsing -/

/-- Numeric value of a list of ASCII digit characters, most significant
first (the accumulation Rust's integer parsing performs). -/
def digitsVal (l : List Char) : Nat :=
  l.foldl (fun acc c => 10 * acc + (c.toNat - 48)) 0

/-- Rust's `str::parse::<i64>`: an optional `+`/`-` sign followed by one or
more ASCII digits, rejected when empty, when a non-digit appears, or when
the value falls outside the `i64` range. -/
def parse_i64 (s : List Char) : Option Int :=
  let signAndDigits : Bool × List Char :=
    match s with
    | c :: rest =>
      if c = '-' then (true, rest)
      else if c = '+' then (false, rest) else (false, s)
    | [] => (false, s)
  let neg := signAndDigits.1
  let ds := signAndDigits.2
  if ds ≠ [] ∧ ds.all Char.isDigit then
    let v : Int := if neg then -(digitsVal ds : Int) else (digitsVal ds : Int)
    if -(2 ^ 63) ≤ v ∧ v ≤ 2 ^ 63 - 1 then some v else none
  else none

/-- Rust's `str::split('.')` specialised to the dot separator: splits into
segments, always returning at least one (possibly empty) segment. -/
def splitOnDot : List Char → List (List Char)
  | [] => [[]]
  | c :: rest =>
    if c = '.' then [] :: splitOnDot rest
    else
      match splitOnDot rest with
      | [] => [[c]]
      | seg :: segs => (c :: seg) :: segs

/-- Rust's `collect::<Result<Vec<_>, _>>()` over the parsed segments:
the first parse failure fails the whole collection. -/
def collectParsed : List (List Char) → Option (List Int)
  | [] => some []
  | s :: rest =>
    match parse_i64 s with
    | none => none
    | some v =>
      match collectParsed rest with
      | none => none
      | some vs => some (v :: vs)

/-- Embeds `impl FromStr for Money` from `src/money.rs`: split on '.', parse every
segment as `i64` (failing if any segment fails), then
`amount[0] * 100 + (amount[1] if exactly two segments else 0)`. -/
def Money.from_str (s : List Char) : Option Money :=
  match collectParsed (splitOnDot s) with
  | none => none
  | some [] => none
  | some (a :: rest) =>
    some ⟨a * 100 + (match rest with | [b] => b | _ => 0)⟩

/-! ### Ledger data model (`src/moneybag.rs`) -/

/-- Embeds `Rate` from `src/moneybag.rs`. -/
structure Rate where
  rate : Money
deriving DecidableEq, Repr

/-- Embeds `Invoice` from `src/moneybag.rs`. -/
structure Invoice where
  date : List Char
  amount : Money
  rate : Option Rate
  customer : Option (List Char)
deriving DecidableEq, Repr

/-- Embeds `Cost` from `src/moneybag.rs`. -/
structure Cost where
  date : List Char
  amount : Money
  name : List Char
deriving DecidableEq, Repr

/-- Embeds `Moneybag` from `src/moneybag.rs`; the `HashMap<String, Rate>` is
embedded as an association list with exact-name lookup. -/
structure Moneybag where
  invoices : List Invoice
  rates : List (List Char × Rate)
  costs : List Cost
deriving DecidableEq, Repr

/-- Embeds `sum_costs` from `src/moneybag.rs`. -/
def sum_costs (costs : List Cost) : Money :=
  Money.sum (costs.map Cost.amount)

/-- Embeds `sum_invoices` from `src/moneybag.rs`: each invoice contributes
`amount * rate.rate` when a rate is attached, else `amount`. -/
def sum_invoices (invoices : List Invoice) : Money :=
  Money.sum (invoices.map (fun invoice =>
    match invoice.rate with
    | some rate => Money.mul invoice.amount rate.rate
    | none => invoice.amount))

/-- Embeds `average_invoice` from `src/moneybag.rs`: guarded truncating division
by the invoice count, zero for an empty list. -/
def average_invoice (invoices : List Invoice) : Money :=
  let invoice_count : Int := invoices.length
  if invoice_count ≠ 0 then Money.div_scalar (sum_invoices invoices) invoice_count
  else Money.zero

/-! ### Command handlers (`src/main.rs`) -/

/-- The figures the `Balance` branch of `handle_command` prints; the
break-even line is present only on the non-zero-average branch. -/
structure BalanceResult where
  costs : Money
  invoices : Money
  total : Money
  average : Money
  break_even : Option Money
deriving DecidableEq, Repr

/-- Embeds the `Command::Balance` branch of `handle_command` in `src/main.rs`. -/
def balance (m : Moneybag) : BalanceResult :=
  let costs := sum_costs m.costs
  let invoices := sum_invoices m.invoices
  let average := average_invoice m.invoices
  let total := Money.sub invoices costs
  if average.is_zero then
    ⟨costs, invoices, total, average, none⟩
  else
    ⟨costs, invoices, total, average, some (Money.div (Money.neg total) average)⟩

/-- Embeds the `AddCommand::Invoice` branch of `handle_add` in `src/main.rs`.  The
returned `Bool` is true exactly when the handler printed the
"Rate ... not found in rates" message instead of pushing an invoice. -/
def handle_add_invoice (date : List Char) (amount : Money)
    (rate : Option (List Char)) (customer : Option (List Char))
    (m : Moneybag) : Moneybag × Bool :=
  match rate with
  | some rname =>
    match List.lookup rname m.rates with
    | some r =>
      ({ m with invoices := m.invoices ++ [⟨date, amount, some r, customer⟩] }, false)
    | none => (m, true)
  | none =>
    ({ m with invoices := m.invoices ++ [⟨date, amount, none, customer⟩] }, false)

/-- The twelve dates `2025-01` … `2025-12` produced by the `"monthly"`
expansion (`format!("2025-{month:02}")` for months 1 to 12). -/
def monthlyCosts (amount : Money) (name : List Char) : List Cost :=
  (List.range 12).map (fun i =>
    ⟨('2' :: '0' :: '2' :: '5' :: '-' :: []) ++ pad2 (i + 1), amount, name⟩)

/-- Embeds the `AddCommand::Cost` branch of `handle_add` in `src/main.rs`. -/
def handle_add_cost (date : List Char) (amount : Money) (name : List Char)
    (m : Moneybag) : Moneybag :=
  if date = ('m' :: 'o' :: 'n' :: 't' :: 'h' :: 'l' :: 'y' :: []) then
    { m with costs := m.costs ++ monthlyCosts amount name }
  else
    { m with costs := m.costs ++ [⟨date, amount, name⟩] }

/-! ### Helper lemmas about digit rendering and parsing -/

theorem digitChar_toNat {n : Nat} (h : n < 10) : (digitChar n).toNat = 48 + n := by
  interval_cases n <;> decide

theorem digitChar_isDigit {n : Nat} (h : n < 10) : (digitChar n).isDigit = true := by
  interval_cases n <;> decide

theorem natDigitsAux_spec : ∀ (fuel n : Nat) (acc : List Char), n < fuel →
    ∃ ds, natDigitsAux fuel n acc = ds ++ acc ∧ ds ≠ [] ∧
      (∀ c ∈ ds, c.isDigit = true) ∧
      ∀ acc0 : Nat,
        ds.foldl (fun a c => 10 * a + (c.toNat - 48)) acc0 = acc0 * 10 ^ ds.length + n := by
  intro fuel
  induction fuel with
  | zero => intro n acc h; omega
  | succ fuel ih =>
    intro n acc h
    by_cases hn : n < 10
    · refine ⟨[digitChar n], ?_, by simp, ?_, ?_⟩
      · simp [natDigitsAux, hn]
      · intro c hc
        simp at hc
        subst hc
        exact digitChar_isDigit hn
      · intro acc0
        simp [List.foldl, digitChar_toNat hn]
        omega
    · have hrec : n / 10 < fuel := by omega
      obtain ⟨ds', heq, hne, hdig, hval⟩ := ih (n / 10) (digitChar (n % 10) :: acc) hrec
      refine ⟨ds' ++ [digitChar (n % 10)], ?_, by simp, ?_, ?_⟩
      · simp [natDigitsAux, hn, heq]
      · intro c hc
        simp at hc
        rcases hc with hc | hc
        · exact hdig c hc
        · subst hc
          exact digitChar_isDigit (Nat.mod_lt _ (by omega))
      · intro acc0
        rw [List.foldl_append]
        simp [hval acc0, digitChar_toNat (Nat.mod_lt n (show 0 < 10 by omega))]
        ring_nf
        omega

theorem natDigits_ne_nil (n : Nat) : natDigits n ≠ [] := by
  obtain ⟨ds, heq, hne, -, -⟩ := natDigitsAux_spec (n + 1) n [] (by omega)
  simpa [natDigits, heq] using hne

theorem natDigits_all_digit (n : Nat) : ∀ c ∈ natDigits n, c.isDigit = true := by
  obtain ⟨ds, heq, -, hdig, -⟩ := natDigitsAux_spec (n + 1) n [] (by omega)
  simpa [natDigits, heq] using hdig

theorem digitsVal_natDigits (n : Nat) : digitsVal (natDigits n) = n := by
  obtain ⟨ds, heq, -, -, hval⟩ := natDigitsAux_spec (n + 1) n [] (by omega)
  have := hval 0
  simp [natDigits, heq, digitsVal, this]

theorem ne_signs_of_isDigit {c : Char} (h : c.isDigit = true) :
    c ≠ '-' ∧ c ≠ '+' ∧ c ≠ '.' := by
  refine ⟨?_, ?_, ?_⟩ <;> rintro rfl <;> exact absurd h (by decide)

theorem parse_i64_digits (ds : List Char) (hne : ds ≠ [])
    (hd : ∀ c ∈ ds, c.isDigit = true)
    (hb : ((digitsVal ds : Nat) : Int) ≤ 2 ^ 63 - 1) :
    parse_i64 ds = some ((digitsVal ds : Nat) : Int) := by
  cases ds with
  | nil => exact absurd rfl hne
  | cons c rest =>
    have hc : c.isDigit = true := hd c (by simp)
    have hcm : c ≠ '-' := (ne_signs_of_isDigit hc).1
    have hcp : c ≠ '+' := (ne_signs_of_isDigit hc).2.1
    have hall : (c :: rest).all Char.isDigit = true := by
      rw [List.all_eq_true]; exact hd
    have hnn : (0 : Int) ≤ ((digitsVal (c :: rest) : Nat) : Int) := Int.ofNat_nonneg _
    simp only [parse_i64, if_neg hcm, if_neg hcp]
    rw [if_pos ⟨by simp, hall⟩, if_pos ⟨by omega, hb⟩]
    simp

theorem parse_i64_neg_digits (ds : List Char) (hne : ds ≠ [])
    (hd : ∀ c ∈ ds, c.isDigit = true)
    (hb : ((digitsVal ds : Nat) : Int) ≤ 2 ^ 63) :
    parse_i64 ('-' :: ds) = some (-((digitsVal ds : Nat) : Int)) := by
  have hall : ds.all Char.isDigit = true := by
    rw [List.all_eq_true]; exact hd
  have hnn : (0 : Int) ≤ ((digitsVal ds : Nat) : Int) := Int.ofNat_nonneg _
  rw [show parse_i64 ('-' :: ds) =
      (if ds ≠ [] ∧ ds.all Char.isDigit = true then
        (if -(2 ^ 63) ≤ -((digitsVal ds : Nat) : Int) ∧
            -((digitsVal ds : Nat) : Int) ≤ 2 ^ 63 - 1 then
          some (-((digitsVal ds : Nat) : Int)) else none)
      else none) from rfl]
  rw [if_pos ⟨hne, hall⟩, if_pos ⟨by omega, by omega⟩]

theorem parse_i64_intToDec (w : Int) (h1 : -(2 ^ 63) ≤ w) (h2 : w ≤ 2 ^ 63 - 1) :
    parse_i64 (intToDec w) = some w := by
  by_cases hw : w < 0
  · have hb : ((digitsVal (natDigits w.natAbs) : Nat) : Int) ≤ 2 ^ 63 := by
      rw [digitsVal_natDigits]; omega
    rw [intToDec, if_pos hw,
      parse_i64_neg_digits _ (natDigits_ne_nil _) (natDigits_all_digit _) hb,
      digitsVal_natDigits]
    congr 1
    omega
  · have hb : ((digitsVal (natDigits w.natAbs) : Nat) : Int) ≤ 2 ^ 63 - 1 := by
      rw [digitsVal_natDigits]; omega
    rw [intToDec, if_neg hw,
      parse_i64_digits _ (natDigits_ne_nil _) (natDigits_all_digit _) hb,
      digitsVal_natDigits]
    congr 1
    omega

theorem digitsVal_cons_zero (l : List Char) : digitsVal ('0' :: l) = digitsVal l := rfl

theorem parse_i64_pad2 (f : Nat) (hb : ((f : Nat) : Int) ≤ 2 ^ 63 - 1) :
    parse_i64 (pad2 f) = some ((f : Nat) : Int) := by
  by_cases hf : f < 10
  · have hd : ∀ c ∈ '0' :: natDigits f, c.isDigit = true := by
      intro c hc
      rcases List.mem_cons.mp hc with hc | hc
      · subst hc; decide
      · exact natDigits_all_digit f c hc
    have hb' : ((digitsVal ('0' :: natDigits f) : Nat) : Int) ≤ 2 ^ 63 - 1 := by
      rw [digitsVal_cons_zero, digitsVal_natDigits]; omega
    rw [pad2, if_pos hf, parse_i64_digits _ (by simp) hd hb',
      digitsVal_cons_zero, digitsVal_natDigits]
  · have hb' : ((digitsVal (natDigits f) : Nat) : Int) ≤ 2 ^ 63 - 1 := by
      rw [digitsVal_natDigits]; omega
    rw [pad2, if_neg hf,
      parse_i64_digits _ (natDigits_ne_nil _) (natDigits_all_digit _) hb',
      digitsVal_natDigits]

/-! ### Helper lemmas about splitting and collecting -/

theorem splitOnDot_ne_nil (s : List Char) : splitOnDot s ≠ [] := by
  induction s with
  | nil => simp [splitOnDot]
  | cons c rest ih =>
    by_cases hc : c = '.'
    · simp [splitOnDot, hc]
    · simp only [splitOnDot, if_neg hc]
      cases h : splitOnDot rest with
      | nil => simp
      | cons seg segs => simp

theorem splitOnDot_of_no_dot (s : List Char) (h : '.' ∉ s) : splitOnDot s = [s] := by
  induction s with
  | nil => rfl
  | cons c rest ih =>
    have hc : c ≠ '.' := by
      intro hc; exact h (by simp [hc])
    have hrest : '.' ∉ rest := by
      intro hr; exact h (by simp [hr])
    rw [splitOnDot, if_neg hc, ih hrest]

theorem splitOnDot_append (s₁ s₂ : List Char) (h : '.' ∉ s₁) :
    splitOnDot (s₁ ++ '.' :: s₂) = s₁ :: splitOnDot s₂ := by
  induction s₁ with
  | nil => simp [splitOnDot]
  | cons c rest ih =>
    have hc : c ≠ '.' := by
      intro hc; exact h (by simp [hc])
    have hrest : '.' ∉ rest := by
      intro hr; exact h (by simp [hr])
    rw [List.cons_append, splitOnDot, if_neg hc, ih hrest]

theorem collectParsed_eq_none_iff (segs : List (List Char)) :
    collectParsed segs = none ↔ ∃ seg ∈ segs, parse_i64 seg = none := by
  induction segs with
  | nil => simp [collectParsed]
  | cons s rest ih =>
    cases hs : parse_i64 s with
    | none => simp [collectParsed, hs]
    | some v =>
      cases hr : collectParsed rest with
      | none =>
        simp only [collectParsed, hs, hr]
        simp only [hr] at ih
        simp only [List.mem_cons]
        constructor
        · intro _
          obtain ⟨seg, hm, hp⟩ := ih.mp trivial
          exact ⟨seg, Or.inr hm, hp⟩
        · intro _; trivial
      | some vs =>
        simp only [collectParsed, hs, hr]
        simp only [hr] at ih
        simp only [List.mem_cons]
        constructor
        · intro hcontra; exact absurd hcontra (by simp)
        · rintro ⟨seg, hm | hm, hp⟩
          · subst hm; rw [hs] at hp; exact absurd hp (by simp)
          · exact absurd (ih.mpr ⟨seg, hm, hp⟩) (by simp)

theorem collectParsed_pair (s₁ s₂ : List Char) (v u : Int)
    (h1 : parse_i64 s₁ = some v) (h2 : parse_i64 s₂ = some u) :
    collectParsed [s₁, s₂] = some [v, u] := by
  simp [collectParsed, h1, h2]

theorem from_str_two_segments (s w f : List Char) (v u : Int)
    (hs : splitOnDot s = [w, f]) (hw : parse_i64 w = some v)
    (hf : parse_i64 f = some u) :
    Money.from_str s = some ⟨v * 100 + u⟩ := by
  rw [Money.from_str, hs, collectParsed_pair w f v u hw hf]

theorem from_str_one_segment (s w : List Char) (v : Int)
    (hs : splitOnDot s = [w]) (hw : parse_i64 w = some v) :
    Money.from_str s = some ⟨v * 100⟩ := by
  rw [Money.from_str, hs]
  simp [collectParsed, hw]

/-! ### The shape of formatted output -/

theorem dot_not_mem_natDigits (n : Nat) : '.' ∉ natDigits n := by
  intro h
  exact absurd (natDigits_all_digit n '.' h) (by decide)

theorem dot_not_mem_intToDec (w : Int) : '.' ∉ intToDec w := by
  rw [intToDec]
  split
  · intro h
    rcases List.mem_cons.mp h with h | h
    · exact absurd h (by decide)
    · exact dot_not_mem_natDigits _ h
  · exact dot_not_mem_natDigits _

theorem dot_not_mem_pad2 (f : Nat) : '.' ∉ pad2 f := by
  rw [pad2]
  split
  · intro h
    rcases List.mem_cons.mp h with h | h
    · exact absurd h (by decide)
    · exact dot_not_mem_natDigits _ h
  · exact dot_not_mem_natDigits _

theorem splitOnDot_format (a : Int) :
    splitOnDot (Money.format ⟨a⟩) =
      [intToDec (Int.tdiv a 100), pad2 (Int.tmod a 100).natAbs] := by
  rw [show Money.format ⟨a⟩ =
      intToDec (Int.tdiv a 100) ++ '.' :: pad2 (Int.tmod a 100).natAbs from rfl,
    splitOnDot_append _ _ (dot_not_mem_intToDec _),
    splitOnDot_of_no_dot _ (dot_not_mem_pad2 _)]

theorem money_format_parse_roundtrip (a : Int)
    (h1 : -(2 ^ 63) ≤ a) (h2 : a ≤ 2 ^ 63 - 1)
    (h3 : 0 ≤ a ∨ Int.tmod a 100 = 0) :
    Money.from_str (Money.format ⟨a⟩) = some ⟨a⟩ := by
  have hwabs : (Int.tdiv a 100).natAbs = a.natAbs / 100 := by
    rw [Int.natAbs_tdiv]; rfl
  have hw1 : -(2 ^ 63) ≤ Int.tdiv a 100 := by omega
  have hw2 : Int.tdiv a 100 ≤ 2 ^ 63 - 1 := by omega
  have hfv : (((Int.tmod a 100).natAbs : Nat) : Int) = Int.tmod a 100 := by
    rcases h3 with h3 | h3
    · exact Int.natAbs_of_nonneg (Int.tmod_nonneg 100 h3)
    · rw [h3]; rfl
  have hmlt : Int.tmod a 100 < 100 := Int.tmod_lt_of_pos a (by omega)
  have hfb : (((Int.tmod a 100).natAbs : Nat) : Int) ≤ 2 ^ 63 - 1 := by omega
  have heq := from_str_two_segments _ _ _ _ _
    (splitOnDot_format a) (parse_i64_intToDec _ hw1 hw2) (parse_i64_pad2 _ hfb)
  rw [heq]
  have hsum := Int.tmod_add_tdiv a 100
  congr 1
  congr 1
  omega

theorem tdiv_hundred_eq_sign_mul (n : Int) :
    Int.tdiv n 100 = n.sign * ((n.natAbs / 100 : Nat) : Int) := by
  cases n with
  | ofNat m =>
    cases m with
    | zero => rfl
    | succ k =>
      simp [Int.tdiv, Int.sign]
      rw [abs_of_nonneg (by positivity)]
  | negSucc m => simp [Int.tdiv, Int.sign]

/-! ### Claims -/

/-- C1: the spec requires `Format(Money(-1)) = "-0.01"`, with the sign carried
even when the truncated major part is zero; the code instead renders
`Money(-1)` as `"0.01"`, losing the sign, because `-1 / 100` truncates to the
signless `0`.  The other two documented examples do hold.  This theorem
evaluates the embedded `Display` implementation at all three inputs. -/
theorem c1_format_minus_one_drops_sign :
    Money.format ⟨-1⟩ = "0.01".data ∧
    Money.format ⟨-1⟩ ≠ "-0.01".data ∧
    Money.format ⟨1000⟩ = "10.00".data ∧
    Money.format ⟨-153⟩ = "-1.53".data := by decide

/-- C3 counterexample: for the documented invoice pair the code returns
`Money(1382)`, not `Money(39250)`: the rated invoice contributes
`(50 * 765) / 100 = 382`, and the spec's expected value forgot to apply the
`/ 100` of the Money-times-Money rule. -/
theorem c3_sum_invoices_counterexample :
    sum_invoices [⟨[], ⟨1000⟩, none, none⟩, ⟨[], ⟨50⟩, some ⟨⟨765⟩⟩, none⟩] = ⟨1382⟩ ∧
    (⟨1382⟩ : Money) ≠ ⟨39250⟩ := by decide

/-- C3 (amended): for the two invoices `[{amount: 1000, rate: none},
{amount: 50, rate: 765}]`, `sum_invoices` returns the flat amount `1000` plus
the rated invoice's effective value `Money.mul ⟨50⟩ ⟨765⟩ = ⟨382⟩` computed by
the Money-times-Money rule, i.e. `1382` minor units in total. -/
theorem c3_sum_invoices_amended :
    sum_invoices [⟨[], ⟨1000⟩, none, none⟩, ⟨[], ⟨50⟩, some ⟨⟨765⟩⟩, none⟩] =
      Money.add ⟨1000⟩ (Money.mul ⟨50⟩ ⟨765⟩) ∧
    Money.mul ⟨50⟩ ⟨765⟩ = ⟨382⟩ ∧
    Money.add ⟨1000⟩ (Money.mul ⟨50⟩ ⟨765⟩) = ⟨1382⟩ := by decide

/-- C9: for all Money values `a` and `b` whose minor-unit product is
`i64`-representable (the source multiplies `i64`s, so beyond that range its
arithmetic overflows instead of producing the exact product, which the spec's
overflow policy treats as a fatal invariant violation rather than a defined
result), `Money.mul` returns exactly `(a.amount * b.amount) / 100` with
Rust's truncating integer division, which always truncates toward zero: the
result is the sign of the product times the magnitude
`|a.amount * b.amount| / 100`.  Being a pure function of its arguments, the
result is deterministic. -/
theorem c9_mul_truncates_toward_zero (a b : Money)
    (_h1 : -(2 ^ 63) ≤ a.amount * b.amount)
    (_h2 : a.amount * b.amount ≤ 2 ^ 63 - 1) :
    Money.mul a b = ⟨Int.tdiv (a.amount * b.amount) 100⟩ ∧
    (Money.mul a b).amount =
      (a.amount * b.amount).sign * (((a.amount * b.amount).natAbs / 100 : Nat) : Int) :=
  ⟨rfl, tdiv_hundred_eq_sign_mul (a.amount * b.amount)⟩

/-- C9 witness: at `a = Money(-7)`, `b = Money(50)` the in-range product
`-350` truncates toward zero to `-3` (not `-4`). -/
theorem c9_mul_truncation_witness : Money.mul ⟨-7⟩ ⟨50⟩ = ⟨-3⟩ := by
  have h := (c9_mul_truncates_toward_zero ⟨-7⟩ ⟨50⟩ (by decide) (by decide)).1
  rw [h]
  decide

/-- C2 counterexample: the round-trip fails for `Money(-153)`, a negative
amount with a nonzero fractional part: `Format(Money(-153)) = "-1.53"` but
`Parse("-1.53") = Money(-47)` because the fractional minor units are added,
not subtracted, onto the negated whole part. -/
theorem c2_roundtrip_counterexample :
    Money.from_str (Money.format ⟨-153⟩) = some ⟨-47⟩ ∧
    Money.from_str (Money.format ⟨-153⟩) ≠ some ⟨-153⟩ := by decide

/-- C2 (amended): `Parse(Format(a)) = a` holds for every `i64`-representable
minor-unit amount `a` that is nonnegative or a whole multiple of 100; for
negative amounts with a nonzero fractional part the round-trip fails (see the
counterexample).  The documented one-digit-fraction quirk
`Parse("1.5") = Money(105)` holds. -/
theorem c2_roundtrip_amended (a : Int)
    (h1 : -(2 ^ 63) ≤ a) (h2 : a ≤ 2 ^ 63 - 1)
    (h3 : 0 ≤ a ∨ Int.tmod a 100 = 0) :
    Money.from_str (Money.format ⟨a⟩) = some ⟨a⟩ ∧
    Money.from_str ("1.5".data) = some ⟨105⟩ :=
  ⟨money_format_parse_roundtrip a h1 h2 h3, by decide⟩

/-- C2 witness: the amended round-trip at the concrete inputs `12345`
(nonnegative) and `-300` (a negative whole multiple of 100). -/
theorem c2_roundtrip_witness :
    Money.from_str (Money.format ⟨12345⟩) = some ⟨12345⟩ ∧
    Money.from_str (Money.format ⟨-300⟩) = some ⟨-300⟩ := by
  constructor
  · exact (c2_roundtrip_amended 12345 (by decide) (by decide) (Or.inl (by decide))).1
  · exact (c2_roundtrip_amended (-300) (by decide) (by decide) (Or.inr (by decide))).1

/-- C10: parsing a text with a negative whole part and a fractional part adds
the fractional minor units to the negated whole: `Parse("-1.53") = Money(-47)`,
not `Money(-153)`; in general for the text `-W.F` the result is
`-W * 100 + F`, stated for the results that are `i64`-representable (the
source computes `-W * 100 + F` on `i64`, whose arithmetic overflows below
`i64`'s minimum instead of producing the exact value; the upper bound holds
automatically since `-W * 100 + F ≤ F`). -/
theorem c10_parse_adds_fraction_to_negative_whole :
    Money.from_str ("-1.53".data) = some ⟨-47⟩ ∧
    Money.from_str ("-1.53".data) ≠ some ⟨-153⟩ ∧
    ∀ (w fr : Nat), ((w : Int) ≤ 2 ^ 63) → ((fr : Int) ≤ 2 ^ 63 - 1) →
      -(2 ^ 63) ≤ -(w : Int) * 100 + (fr : Int) →
      Money.from_str ('-' :: natDigits w ++ '.' :: natDigits fr) =
        some ⟨-(w : Int) * 100 + (fr : Int)⟩ := by
  refine ⟨by decide, by decide, ?_⟩
  intro w fr hw hf _
  have hnd : '.' ∉ '-' :: natDigits w := by
    intro h
    rcases List.mem_cons.mp h with h | h
    · exact absurd h (by decide)
    · exact dot_not_mem_natDigits _ h
  have hsplit : splitOnDot ('-' :: natDigits w ++ '.' :: natDigits fr) =
      [('-' :: natDigits w), natDigits fr] := by
    rw [show '-' :: natDigits w ++ '.' :: natDigits fr =
        ('-' :: natDigits w) ++ '.' :: natDigits fr from rfl,
      splitOnDot_append _ _ hnd, splitOnDot_of_no_dot _ (dot_not_mem_natDigits _)]
  have hwp : parse_i64 ('-' :: natDigits w) = some (-((w : Nat) : Int)) := by
    have h := parse_i64_neg_digits (natDigits w) (natDigits_ne_nil _)
      (natDigits_all_digit _) (by rw [digitsVal_natDigits]; exact hw)
    rwa [digitsVal_natDigits] at h
  have hfp : parse_i64 (natDigits fr) = some ((fr : Nat) : Int) := by
    have h := parse_i64_digits (natDigits fr) (natDigits_ne_nil _)
      (natDigits_all_digit _) (by rw [digitsVal_natDigits]; exact hf)
    rwa [digitsVal_natDigits] at h
  rw [from_str_two_segments _ _ _ _ _ hsplit hwp hfp]

/-- C10 witness: the general `-W.F` rule at `W = 2`, `F = 7`:
`Parse("-2.7") = Money(-193)`. -/
theorem c10_parse_adds_fraction_witness :
    Money.from_str ('-' :: natDigits 2 ++ '.' :: natDigits 7) = some ⟨-193⟩ := by
  have h := c10_parse_adds_fraction_to_negative_whole.2.2 2 7
    (by decide) (by decide) (by decide)
  rw [h]
  norm_num

theorem collectParsed_eq_some_nil (segs : List (List Char))
    (h : collectParsed segs = some []) : segs = [] := by
  cases segs with
  | nil => rfl
  | cons s rest =>
    rw [collectParsed] at h
    cases hs : parse_i64 s with
    | none => rw [hs] at h; exact absurd h (by simp)
    | some v =>
      rw [hs] at h
      cases hr : collectParsed rest with
      | none => rw [hr] at h; exact absurd h (by simp)
      | some vs => rw [hr] at h; exact absurd h (by simp)

/-- C5: parsing splits the input on the decimal point; when the split gives a
single integer segment the result is `whole * 100`, when it gives a whole and
a fractional integer segment the fractional value is added verbatim (so a
one-digit fraction contributes its face value), and the parse fails exactly
when some segment is not a valid `i64` integer.  The value clauses are
restricted to results that are `i64`-representable, because the source
computes `amount[0] * 100 + amount[1]` on `i64`, whose arithmetic overflows
beyond that range instead of producing the exact value. -/
theorem c5_parse_split_semantics (s : List Char) :
    (Money.from_str s = none ↔ ∃ seg ∈ splitOnDot s, parse_i64 seg = none) ∧
    (∀ w v, splitOnDot s = [w] → parse_i64 w = some v →
      -(2 ^ 63) ≤ v * 100 → v * 100 ≤ 2 ^ 63 - 1 →
      Money.from_str s = some ⟨v * 100⟩) ∧
    (∀ w f v u, splitOnDot s = [w, f] → parse_i64 w = some v →
      parse_i64 f = some u →
      -(2 ^ 63) ≤ v * 100 + u → v * 100 + u ≤ 2 ^ 63 - 1 →
      Money.from_str s = some ⟨v * 100 + u⟩) := by
  refine ⟨⟨?_, ?_⟩, ?_, ?_⟩
  · intro h
    rw [Money.from_str] at h
    cases hcp : collectParsed (splitOnDot s) with
    | none => exact (collectParsed_eq_none_iff _).mp hcp
    | some l =>
      rw [hcp] at h
      cases l with
      | nil => exact absurd (collectParsed_eq_some_nil _ hcp) (splitOnDot_ne_nil s)
      | cons a rest => exact absurd h (by simp)
  · intro ⟨seg, hm, hp⟩
    rw [Money.from_str, (collectParsed_eq_none_iff _).mpr ⟨seg, hm, hp⟩]
  · intro w v hs hw _ _
    exact from_str_one_segment s w v hs hw
  · intro w f v u hs hw hf _ _
    exact from_str_two_segments s w f v u hs hw hf

/-- C5 witness: the split semantics at the concrete input `"1.5"`, whose
one-digit fraction contributes 5 minor units. -/
theorem c5_parse_split_witness : Money.from_str ("1.5".data) = some ⟨105⟩ := by
  have h := (c5_parse_split_semantics ("1.5".data)).2.2
    ['1'] ['5'] 1 5 (by decide) (by decide) (by decide) (by decide) (by decide)
  rw [h]
  norm_num

/-- C6: `average_invoice` of the empty invoice list is `Money(0)` by an
explicit guard, with no error; for every non-empty list it is the invoice sum
divided by the invoice count with Rust's truncating scalar division. -/
theorem c6_average_invoice_guard (invs : List Invoice) :
    average_invoice [] = Money.zero ∧ Money.zero = ⟨0⟩ ∧
    (invs ≠ [] →
      average_invoice invs = Money.div_scalar (sum_invoices invs) invs.length) := by
  refine ⟨rfl, rfl, ?_⟩
  intro h
  have hlen : invs.length ≠ 0 := by
    intro hl
    exact h (List.length_eq_zero.mp hl)
  have hcond : (invs.length : Int) ≠ 0 := by
    simpa using hlen
  rw [show average_invoice invs =
      (if (invs.length : Int) ≠ 0 then
        Money.div_scalar (sum_invoices invs) invs.length
      else Money.zero) from rfl, if_pos hcond]

/-- C6 witness: the average of two flat invoices of 1000 and 2001 minor units
is `3001 / 2 = 1500` by truncation. -/
theorem c6_average_invoice_witness :
    average_invoice [⟨[], ⟨1000⟩, none, none⟩, ⟨[], ⟨2001⟩, none, none⟩] = ⟨1500⟩ := by
  have h := (c6_average_invoice_guard
    [⟨[], ⟨1000⟩, none, none⟩, ⟨[], ⟨2001⟩, none, none⟩]).2.2 (by decide)
  rw [h]
  decide

/-- C7: adding an invoice that names an absent rate leaves the ledger
unmodified and signals "rate not found"; naming a present rate appends an
invoice carrying a value copy of that rate; naming no rate appends a flat
invoice with no captured rate. -/
theorem c7_add_invoice_rate_lookup (m : Moneybag) (date : List Char)
    (amount : Money) (customer : Option (List Char)) :
    (∀ rname, List.lookup rname m.rates = none →
      handle_add_invoice date amount (some rname) customer m = (m, true)) ∧
    (∀ rname r, List.lookup rname m.rates = some r →
      handle_add_invoice date amount (some rname) customer m =
        ({ m with invoices := m.invoices ++ [⟨date, amount, some r, customer⟩] },
          false)) ∧
    handle_add_invoice date amount none customer m =
      ({ m with invoices := m.invoices ++ [⟨date, amount, none, customer⟩] },
        false) := by
  refine ⟨?_, ?_, rfl⟩
  · intro rname h
    simp [handle_add_invoice, h]
  · intro rname r h
    simp [handle_add_invoice, h]

/-- C7 witness: adding an invoice referencing rate `"x"` to a ledger with no
rates leaves the ledger unchanged and raises the not-found flag. -/
theorem c7_add_invoice_witness :
    handle_add_invoice [] ⟨500⟩ (some ['x']) none ⟨[], [], []⟩ =
      (⟨[], [], []⟩, true) :=
  (c7_add_invoice_rate_lookup ⟨[], [], []⟩ [] ⟨500⟩ none).1 ['x'] (by decide)

/-- C8: adding a cost whose date token is exactly `"monthly"` appends exactly
12 cost entries, one per month 1–12 of the fixed reference year 2025, each
with the identical amount and name and a date `2025-MM` with a zero-padded
month; any other date token appends exactly the one cost unchanged. -/
theorem c8_monthly_cost_expansion (m : Moneybag) (amount : Money)
    (name : List Char) :
    (handle_add_cost ('m' :: 'o' :: 'n' :: 't' :: 'h' :: 'l' :: 'y' :: [])
        amount name m).costs = m.costs ++ monthlyCosts amount name ∧
    (monthlyCosts amount name).length = 12 ∧
    (∀ c ∈ monthlyCosts amount name, c.amount = amount ∧ c.name = name ∧
      ∃ mo, 1 ≤ mo ∧ mo ≤ 12 ∧
        c.date = ('2' :: '0' :: '2' :: '5' :: '-' :: []) ++ pad2 mo) ∧
    (∀ date, date ≠ ('m' :: 'o' :: 'n' :: 't' :: 'h' :: 'l' :: 'y' :: []) →
      handle_add_cost date amount name m =
        { m with costs := m.costs ++ [⟨date, amount, name⟩] }) := by
  refine ⟨?_, ?_, ?_, ?_⟩
  · rw [handle_add_cost, if_pos rfl]
  · simp [monthlyCosts]
  · intro c hc
    simp only [monthlyCosts, List.mem_map, List.mem_range] at hc
    obtain ⟨i, hi, rfl⟩ := hc
    exact ⟨rfl, rfl, i + 1, by omega, by omega, rfl⟩
  · intro date h
    rw [handle_add_cost, if_neg h]

/-- C8 witness: one ordinary cost of 10000 plus a `"monthly"` cost of 500
yields 13 costs summing to 16000 minor units. -/
theorem c8_monthly_cost_witness :
    (handle_add_cost ('m' :: 'o' :: 'n' :: 't' :: 'h' :: 'l' :: 'y' :: [])
        ⟨500⟩ ['r'] ⟨[], [], [⟨[], ⟨10000⟩, ['i']⟩]⟩).costs.length = 13 ∧
    sum_costs (handle_add_cost ('m' :: 'o' :: 'n' :: 't' :: 'h' :: 'l' :: 'y' :: [])
        ⟨500⟩ ['r'] ⟨[], [], [⟨[], ⟨10000⟩, ['i']⟩]⟩).costs = ⟨16000⟩ := by
  have h := (c8_monthly_cost_expansion ⟨[], [], [⟨[], ⟨10000⟩, ['i']⟩]⟩
    ⟨500⟩ ['r']).1
  constructor
  · rw [h]; decide
  · rw [h]; decide

/-- C4: `balance` computes `costs = sum_costs`, `invoices = sum_invoices`,
`average = average_invoice`, `total = invoices - costs`, and carries the
break-even figure `-total / average` (by the Money-by-Money truncating rule
`(x * 100) / y`) exactly when `average` is nonzero; when `average.is_zero`
the figure is omitted rather than computed or errored. -/
theorem c4_balance_break_even_guard (m : Moneybag) :
    (balance m).costs = sum_costs m.costs ∧
    (balance m).invoices = sum_invoices m.invoices ∧
    (balance m).average = average_invoice m.invoices ∧
    (balance m).total = Money.sub (sum_invoices m.invoices) (sum_costs m.costs) ∧
    ((average_invoice m.invoices).is_zero = true → (balance m).break_even = none) ∧
    ((average_invoice m.invoices).is_zero = false →
      (balance m).break_even =
        some (Money.div
          (Money.neg (Money.sub (sum_invoices m.invoices) (sum_costs m.costs)))
          (average_invoice m.invoices))) := by
  by_cases h : (average_invoice m.invoices).is_zero = true
  · rw [show balance m =
        ⟨sum_costs m.costs, sum_invoices m.invoices,
          Money.sub (sum_invoices m.invoices) (sum_costs m.costs),
          average_invoice m.invoices, none⟩ from by rw [balance, if_pos h]]
    exact ⟨rfl, rfl, rfl, rfl, fun _ => rfl, fun hc => absurd h (by simp [hc])⟩
  · rw [show balance m =
        ⟨sum_costs m.costs, sum_invoices m.invoices,
          Money.sub (sum_invoices m.invoices) (sum_costs m.costs),
          average_invoice m.invoices,
          some (Money.div
            (Money.neg (Money.sub (sum_invoices m.invoices) (sum_costs m.costs)))
            (average_invoice m.invoices))⟩ from by rw [balance, if_neg h]]
    exact ⟨rfl, rfl, rfl, rfl, fun hc => absurd hc h,
      fun _ => rfl⟩

/-- C4 witness: a ledger with one flat invoice of 1000 and one cost of 3000
has average 1000, total -2000, and break-even figure
`2000 * 100 / 1000 = 200` (two average invoices to break even). -/
theorem c4_balance_break_even_witness :
    (balance ⟨[⟨[], ⟨1000⟩, none, none⟩], [], [⟨[], ⟨3000⟩, ['i']⟩]⟩).break_even =
      some ⟨200⟩ := by
  have h := (c4_balance_break_even_guard
    ⟨[⟨[], ⟨1000⟩, none, none⟩], [], [⟨[], ⟨3000⟩, ['i']⟩]⟩).2.2.2.2.2 (by decide)
  rw [h]
  decide
